import Mathlib

/-!
Verification of the pax Debian-package builder (harrybrwn/pax).

This file gives a shallow embedding of the package archive engine of the
repository — the Debian version model (src/pax/src/deb.rs), the payload
builder (DataBuilder), the control tarball generation and the build
orchestration (src/pax/src/build.rs) — and proves or refutes the spec
claims about it.

Strings from the Rust code are modelled as Lean String / List Char
(Rust str byte indices and byte-wise ordering agree with the character
level decompositions used here because UTF-8 is order- and
boundary-preserving), machine integers as Nat with explicit bounds where
the code can overflow, fallible operations as Option / Except.
-/

namespace Pax

/-! ## Version model (src/pax/src/deb.rs, struct Version)

A Debian-style version.  Fields are u32 in the source; we use Nat and
keep the 2^32 bound inside the integer parser, which is where the source
enforces it. The revision is kept as a character list (Rust String). -/

structure Version where
  epoch : Nat
  major : Nat
  minor : Nat
  patch : Nat
  revision : List Char
deriving DecidableEq, Repr

/-- Value of a decimal digit character, as in Rust char::to_digit(10). -/
def digitToNat (c : Char) : Nat := c.toNat - 48

/-- Accumulate decimal digits left to right, as u32::from_str does. -/
def digitsVal (ds : List Char) : Nat :=
  ds.foldl (fun a c => a * 10 + digitToNat c) 0

/-- Embedding of Rust u32::from_str, used by str::parse::<u32>() in the
version parser.  An optional leading sign is accepted; for the
unsigned type a minus sign succeeds only when every following digit is
zero (checked subtraction from zero), and a value of 2^32 or more is an
overflow error. -/
def parseU32 (s : List Char) : Option Nat :=
  match s with
  | [] => none
  | c :: rest =>
    let neg : Bool := c = '-'
    let digits := if c = '+' ∨ c = '-' then rest else s
    if digits = [] then none
    else if digits.all Char.isDigit then
      let n := digitsVal digits
      if neg then (if n = 0 then some 0 else none)
      else if n < 4294967296 then some n else none
    else none

/-- Embedding of Rust str::split_once(c): split at the first occurrence
of the separator, or none when the separator does not occur. -/
def splitOnce (sep : Char) : List Char → Option (List Char × List Char)
  | [] => none
  | x :: xs =>
    if x = sep then some ([], xs)
    else (splitOnce sep xs).map (fun p => (x :: p.1, p.2))

/-- Embedding of Rust str::find(c): index of the first occurrence. -/
def findChar (c : Char) : List Char → Option Nat
  | [] => none
  | x :: xs => if x = c then some 0 else (findChar c xs).map (· + 1)

/-- Embedding of the private min helper in deb.rs (min over Option). -/
def minOpt : Option Nat → Option Nat → Option Nat
  | some a, some b => some (min a b)
  | some a, none => some a
  | none, some b => some b
  | none, none => none

/-- Embedding of str::split(c) (Rust split on a char pattern): always
returns at least one piece; empty pieces are kept. -/
def splitChar (sep : Char) : List Char → List (List Char)
  | [] => [[]]
  | x :: xs =>
    if x = sep then [] :: splitChar sep xs
    else
      match splitChar sep xs with
      | h :: t => (x :: h) :: t
      | [] => [[x]]

/-- Embedding of value.strip_prefix("v").unwrap_or(value) in the version
parser: the source strips one leading lowercase letter v only. -/
def stripV (l : List Char) : List Char :=
  match l with
  | c :: rest => if c = 'v' then rest else l
  | [] => l

/-- Embedding of the for-loop over value.split('.').enumerate() in
TryFrom for str for Version: each piece must parse as u32; pieces 0, 1, 2
set major, minor, patch and any later piece is a hard error. -/
def applySections : List (List Char) → Nat → Nat → Nat → Nat → Option (Nat × Nat × Nat)
  | [], _, ma, mi, pa => some (ma, mi, pa)
  | p :: rest, i, ma, mi, pa =>
    match parseU32 p with
    | none => none
    | some v =>
      match i with
      | 0 => applySections rest 1 v mi pa
      | 1 => applySections rest 2 ma v pa
      | 2 => applySections rest 3 ma mi v
      | _ => none

/-- Embedding of impl TryFrom for str for Version (deb.rs lines 286-329):
empty input fails; an optional epoch is split off at the first colon and
must parse as u32; the earliest of the three delimiter characters starts
the revision; the remaining upstream version (after stripping one
leading lowercase v) splits on dots into at most three numeric parts.
The part after the epoch is factored out here as versionParseRest; the
source writes it inline after the split_once(':') block. -/
def versionParseRest (e : Nat) (value : List Char) : Option Version :=
  let ix? := minOpt (findChar '~' value) (minOpt (findChar '+' value) (findChar '-' value))
  match applySections (splitChar '.' (stripV
          (match ix? with | some ix => value.take ix | none => value))) 0 0 0 0 with
  | none => none
  | some (ma, mi, pa) =>
    some ⟨e, ma, mi, pa, match ix? with | some ix => value.drop ix | none => []⟩

def versionTryFrom (input : List Char) : Option Version :=
  if input = [] then none
  else
    match splitOnce ':' input with
    | none => versionParseRest 0 input
    | some (ep, rest) =>
      match parseU32 ep with
      | none => none
      | some e => versionParseRest e rest

/-- Convenience wrapper taking a Lean String. -/
def parseVersion (s : String) : Option Version := versionTryFrom s.data

/-! ### Decimal rendering, for impl ToString for Version

Rust u32 Display prints the plain decimal digits.  The fuel argument
(n + 1 at the top call) keeps the recursion structural so that concrete
instances reduce inside the kernel. -/

def natCharsAux : Nat → Nat → List Char
  | 0, _ => []
  | fuel + 1, n =>
    if n < 10 then [Nat.digitChar n]
    else natCharsAux fuel (n / 10) ++ [Nat.digitChar (n % 10)]

/-- Decimal digit characters of a natural number (Rust u32 Display). -/
def natChars (n : Nat) : List Char := natCharsAux (n + 1) n

/-- Embedding of impl ToString for Version (deb.rs lines 331-338):
the format string "e:ma.mi.pa" followed by the revision verbatim. -/
def versionToString (v : Version) : List Char :=
  natChars v.epoch ++ ':' ::
    (natChars v.major ++ '.' :: (natChars v.minor ++ '.' :: (natChars v.patch ++ v.revision)))

/-! ### Ordering (impl PartialOrd / Ord for Version) -/

/-- Embedding of Ord for Rust String: lexicographic byte comparison;
on the character level this is lexicographic comparison of scalar
values, which induces the same order as UTF-8 bytes. -/
def revCmp : List Char → List Char → Ordering
  | [], [] => .eq
  | [], _ :: _ => .lt
  | _ :: _, [] => .gt
  | x :: xs, y :: ys =>
    match compare x.toNat y.toNat with
    | .eq => revCmp xs ys
    | o => o

/-- Embedding of impl PartialOrd for Version (deb.rs lines 340-356):
walk the four numeric field pairs, returning on the first strict
comparison, then fall through to the revision strings. -/
def versionPartialCmp (a b : Version) : Option Ordering :=
  match compare a.epoch b.epoch with
  | .lt => some .lt
  | .gt => some .gt
  | .eq =>
    match compare a.major b.major with
    | .lt => some .lt
    | .gt => some .gt
    | .eq =>
      match compare a.minor b.minor with
      | .lt => some .lt
      | .gt => some .gt
      | .eq =>
        match compare a.patch b.patch with
        | .lt => some .lt
        | .gt => some .gt
        | .eq => some (revCmp a.revision b.revision)

/-- Embedding of impl Ord for Version (deb.rs lines 360-376): the same
loop as PartialOrd, written separately in the source. -/
def versionOrdCmp (a b : Version) : Ordering :=
  match compare a.epoch b.epoch with
  | .lt => .lt
  | .gt => .gt
  | .eq =>
    match compare a.major b.major with
    | .lt => .lt
    | .gt => .gt
    | .eq =>
      match compare a.minor b.minor with
      | .lt => .lt
      | .gt => .gt
      | .eq =>
        match compare a.patch b.patch with
        | .lt => .lt
        | .gt => .gt
        | .eq => revCmp a.revision b.revision

/-- Specification-side ordering: compare (epoch, major, minor, patch)
lexicographically as unsigned integers, then the revision strings
byte-wise (claim C10's description). -/
def specVersionCmp (a b : Version) : Ordering :=
  (compare a.epoch b.epoch).then
    ((compare a.major b.major).then
      ((compare a.minor b.minor).then
        ((compare a.patch b.patch).then (revCmp a.revision b.revision))))

/-! ### Specification-side version parser (for claim C2)

These definitions follow the wording of the spec rather than the shape
of the Rust code; the C2 theorem proves both parsers equal. -/

/-- Test for the three revision delimiter characters. -/
def isRevDelim (c : Char) : Bool := c = '~' || c = '+' || c = '-'

/-- Index of the earliest occurrence of a revision delimiter, as the
spec words it ("the earliest of the three characters"). -/
def firstDelimIdx : List Char → Option Nat
  | [] => none
  | c :: cs => if isRevDelim c then some 0 else (firstDelimIdx cs).map (· + 1)

/-- Specification-side reading of the dot-separated components: at most
three numeric components give (major, minor, patch), missing trailing
components default to zero, a fourth component or a non-numeric
component fails. -/
def specSections : List (List Char) → Option (Nat × Nat × Nat)
  | [a] => (parseU32 a).map (fun x => (x, 0, 0))
  | [a, b] =>
    match parseU32 a, parseU32 b with
    | some x, some y => some (x, y, 0)
    | _, _ => none
  | [a, b, c] =>
    match parseU32 a, parseU32 b, parseU32 c with
    | some x, some y, some z => some (x, y, z)
    | _, _, _ => none
  | _ => none

/-- Specification-side handling of everything after the epoch: the
revision is the substring from the earliest delimiter to the end,
delimiter included; the part before it, after stripping one leading
lowercase v (claim C2 as amended by claim C7), splits on dots. -/
def specParseRest (e : Nat) (rest : List Char) : Option Version :=
  let upstream := match firstDelimIdx rest with
    | some ix => rest.take ix
    | none => rest
  let rev := match firstDelimIdx rest with
    | some ix => rest.drop ix
    | none => []
  match specSections (splitChar '.' (stripV upstream)) with
  | none => none
  | some (ma, mi, pa) => some ⟨e, ma, mi, pa, rev⟩

/-- Specification-side version parser: empty input fails; an optional
epoch is split off at the first colon and its left part must parse as
an unsigned integer; then the rest is handled by specParseRest. -/
def specParseVersion (input : List Char) : Option Version :=
  if input = [] then none
  else
    match splitOnce ':' input with
    | some (ep, rest) =>
      match parseU32 ep with
      | none => none
      | some e => specParseRest e rest
    | none => specParseRest 0 input

/-! ## Path handling (src/pax/src/deb.rs, strip_leading_slash and friends)

Paths are Lean Strings.  Rust Path::components on Unix splits on the
separator, drops empty pieces and normalizes CurDir components away;
we model the component list with splitChar on the character data so the
proofs can reason about it. -/

/-- Embedding of Path::is_absolute (Unix: the path starts with the root
separator). -/
def isAbsPath (s : String) : Bool :=
  match s.data with
  | '/' :: _ => true
  | _ => false

/-- Embedding of Rust Path::components (Unix), root excluded: split on
the separator, drop empty pieces and CurDir pieces; ParentDir pieces
are kept as literal ".." components. -/
def pathComps (s : String) : List String :=
  ((splitChar '/' s.data).filter (fun c => c ≠ [] ∧ c ≠ ['.'])).map
    (fun c => (⟨c⟩ : String))

/-- Join a component list back into a path, as collecting components
into a PathBuf does (separator between successive components). -/
def joinComps : List String → String
  | [] => ""
  | [c] => c
  | c :: rest => c ++ "/" ++ joinComps rest

/-- Embedding of strip_leading_slash (deb.rs lines 211-218): an absolute
path is rebuilt from its components after the root
(p.iter().skip(1).collect()), which also normalizes away empty and
CurDir components; a relative path is returned untouched. -/
def stripLeadingSlash (s : String) : String :=
  if isAbsPath s then joinComps (pathComps s) else s

/-- True when the path ends in the separator. -/
def endsWithSlash (s : String) : Bool := s.data.getLast? = some '/'

/-- Embedding of PathBuf::push / Path::join for a relative right-hand
side. -/
def joinPath (a b : String) : String :=
  if a = "" then b else if endsWithSlash a then a ++ b else a ++ "/" ++ b

/-! ## Filesystem model

The DataBuilder reads the filesystem through fs::metadata, fs::File and
the Walker in util.rs.  We model a filesystem as an association list of
paths to nodes; a directory node carries its child entries in read_dir
order.  FsEntries is a specialized list so the mutual recursion over
the tree stays structural. -/

mutual
inductive FsNode where
  | file : (content : List Nat) → (mode : Nat) → (mtime : Nat) → FsNode
  | dir : FsEntries → FsNode
  | symlink : (target : String) → (mtime : Nat) → FsNode
  | special : FsNode

inductive FsEntries where
  | nil : FsEntries
  | cons : (name : String) → FsNode → FsEntries → FsEntries
end

def Fs : Type := List (String × FsNode)

/-- Look a path up in the filesystem (no symlink traversal), as lstat
or a directory entry read would. -/
def fsLookup (fs : Fs) (p : String) : Option FsNode :=
  match fs with
  | [] => none
  | (q, n) :: rest => if q = p then some n else fsLookup rest p

/-- Embedding of std fs::metadata, which traverses symbolic links
(POSIX stat): a symlink resolves to its target's node, with fuel for
link chains (Linux gives up after 40 hops, ELOOP); a missing path or an
exhausted chain is a stat error (none).  Note this is the function the
source calls at the top of DataBuilder::add_path, so the is_symlink
check there never sees a symlink. -/
def fsMetadataAux (fs : Fs) : Nat → String → Option FsNode
  | 0, _ => none
  | fuel + 1, p =>
    match fsLookup fs p with
    | some (.symlink t _) => fsMetadataAux fs fuel t
    | r => r

def fsMetadata (fs : Fs) (p : String) : Option FsNode := fsMetadataAux fs 40 p

/-! ## Tar entries and the DataBuilder (src/pax/src/deb.rs) -/

inductive TarEntryType where
  | regular
  | directory
  | symlink
deriving DecidableEq, Repr

/-- One entry of a tar stream as the builder emits it: the header
fields the source sets (path, mode, declared size, mtime) and the bytes
streamed after the header.  For symlink entries the content is empty
and linkTarget carries the link destination. -/
structure TarEntry where
  path : String
  etype : TarEntryType
  mode : Nat
  size : Nat
  mtime : Nat
  content : List Nat
  linkTarget : String
deriving DecidableEq, Repr

/-- The error taxonomy of the embedded operations.  The unsupported
file type errors carry the message string of the source's to_io_err
call. -/
inductive BuildErr where
  | statFailed : String → BuildErr
  | unsupportedFileType : String → BuildErr
  | invalidPath : BuildErr
  | missingMaintainer : BuildErr
  | maintainerUnbuildable : BuildErr
deriving DecidableEq, Repr

/-- State of a DataBuilder (deb.rs lines 48-67): the tar entries
emitted so far, the accumulated size of regular files, the set of
directories already emitted (a HashSet in the source, a list with
membership here), the hash records in emission order, and the fixed
header timestamp taken at construction (mtime_now). -/
structure DBState where
  entries : List TarEntry
  size : Nat
  dirs : List (List String)
  hashes : List (List Nat × String)
  time : Nat
deriving Repr

/-- Fresh builder state (DataBuilder::new). -/
def dbInit (now : Nat) : DBState :=
  { entries := [], size := 0, dirs := [], hashes := [], time := now }

/-- Embedding of DataBuilder::directory (deb.rs lines 175-188): a tar
directory entry at mode 0755, size 0, builder timestamp, path with a
trailing separator appended. -/
def dirTarEntry (comps : List String) (time : Nat) : TarEntry :=
  { path := joinComps comps ++ "/", etype := .directory, mode := 0o755, size := 0,
    mtime := time, content := [], linkTarget := "" }

/-- Embedding of the for-loop in add_parent_directories: walk the
normal components in order, extending the accumulated directory path,
and emit a tar directory entry for each prefix not seen before. -/
def emitDirs (st : DBState) (acc : List String) : List String → DBState
  | [] => st
  | c :: rest =>
    if acc ++ [c] ∈ st.dirs then emitDirs st (acc ++ [c]) rest
    else
      emitDirs
        { st with dirs := st.dirs ++ [acc ++ [c]],
                  entries := st.entries ++ [dirTarEntry (acc ++ [c]) st.time] }
        (acc ++ [c]) rest

/-- Embedding of DataBuilder::add_parent_directories (deb.rs lines
190-208): take the parent of the destination (an error when there is
none, i.e. the path has no components), prefix with CurDir as the
source does, and walk its Normal components — CurDir and ParentDir
components are skipped by the match. -/
def addParentDirectories (st : DBState) (dst : String) : Except BuildErr DBState :=
  match pathComps dst with
  | [] => .error .invalidPath
  | comps =>
    .ok (emitDirs st [] (comps.dropLast.filter (fun c => c != "." && c != "..")))

/-- Embedding of DataBuilder::add_reader (deb.rs lines 138-159): strip
the leading slash, synthesize missing parent directories, then emit a
tar entry for the file whose bytes are streamed through the MD5 hasher
(util.rs HashReader hands every byte read to the hasher before the tar
writer sees it), record (digest, destination) and add the declared size
to the running total.  The digest function is a parameter of the
model. -/
def addReader (md5 : List Nat → List Nat) (st : DBState) (dest : String)
    (content : List Nat) (size mode : Nat) : Except BuildErr DBState :=
  let dst := stripLeadingSlash dest
  match addParentDirectories st dst with
  | .error e => .error e
  | .ok st1 =>
    .ok { st1 with
      entries := st1.entries ++
        [{ path := dst, etype := .regular, mode := mode, size := size,
           mtime := st1.time, content := content, linkTarget := "" }],
      size := st1.size + size,
      hashes := st1.hashes ++ [(md5 content, dst)] }

/-! ### The directory walk (util.rs Walker)

Walker::walk iterates read_dir in order, recurses into directories and
hands every other entry to the callback.  Because the callback never
changes the filesystem, running the callback over the depth-first list
of non-directory leaves is observationally the same as interleaving it
with the traversal, including the position of the first error. -/

mutual
/-- Depth-first non-directory leaves of a node, tagged with the path
relative to the walk root. -/
def nodeLeaves (rel : String) : FsNode → List (String × FsNode)
  | .dir es => entriesLeaves rel es
  | n => [(rel, n)]

def entriesLeaves (rel : String) : FsEntries → List (String × FsNode)
  | .nil => []
  | .cons name child rest =>
    nodeLeaves (joinPath rel name) child ++ entriesLeaves rel rest
end

/-- Error-propagating fold used to run a callback over a list, stopping
at the first error as the Walker does. -/
def foldE (f : DBState → α → Except BuildErr DBState) :
    DBState → List α → Except BuildErr DBState
  | st, [] => .ok st
  | st, a :: rest =>
    match f st a with
    | .error e => .error e
    | .ok st2 => foldE f st2 rest

/-- Embedding of the walk callback in DataBuilder::add_path (deb.rs
lines 100-130): the destination is dst joined with the entry path
relative to the source.  A nested symlink becomes a tar symlink entry
(size 0, entry mtime from DirEntry::metadata, which does not traverse
the link, no hash, no parent synthesis); a nested regular file goes
through add_reader with its stat size and mode; any other leaf is
ignored (the callback has no else branch). -/
def walkStep (md5 : List Nat → List Nat) (dst : String) (st : DBState) :
    String × FsNode → Except BuildErr DBState
  | (rel, .symlink target mt) =>
    .ok { st with entries := st.entries ++
      [{ path := joinPath dst rel, etype := .symlink, mode := 0, size := 0,
         mtime := mt, content := [], linkTarget := target }] }
  | (rel, .file content mode _) =>
    addReader md5 st (joinPath dst rel) content content.length mode
  | (_, .special) => .ok st
  | (_, .dir _) => .ok st

/-- Embedding of DataBuilder::add_path (deb.rs lines 73-136): stat the
source with fs::metadata (which follows symlinks), then dispatch on the
file type: symlink is rejected (a branch that fs::metadata makes
unreachable), a regular file is streamed via add_reader, a directory is
walked, anything else is rejected. -/
def addPath (md5 : List Nat → List Nat) (fs : Fs) (st : DBState)
    (source dest : String) : Except BuildErr DBState :=
  let dst := stripLeadingSlash dest
  match fsMetadata fs source with
  | none => .error (.statFailed source)
  | some (.symlink _ _) =>
    .error (.unsupportedFileType "symlinks are not supported file types")
  | some (.file content mode _) => addReader md5 st dst content content.length mode
  | some (.dir es) => foldE (walkStep md5 dst) st (entriesLeaves "" es)
  | some .special =>
    .error (.unsupportedFileType "directories and files are the only supported file types")

/-! ## BuildSpec (src/pax/src/build.rs) -/

/-- Embedding of deb.rs enum Priority.  The derive macro in
pax-derive/src/userdata.rs generates Into for str as the lowercase
variant name. -/
inductive Priority where
  | required
  | important
  | standard
  | optional
  | extra
  | invalid
deriving DecidableEq, Repr

def Priority.toStr : Priority → String
  | .required => "required"
  | .important => "important"
  | .standard => "standard"
  | .optional => "optional"
  | .extra => "extra"
  | .invalid => "invalid"

/-- Embedding of deb.rs enum Urgency, with the derived lowercase
rendering. -/
inductive Urgency where
  | low
  | medium
  | high
  | emergency
  | critical
deriving DecidableEq, Repr

def Urgency.toStr : Urgency → String
  | .low => "low"
  | .medium => "medium"
  | .high => "high"
  | .emergency => "emergency"
  | .critical => "critical"

/-- Modelled from the spec: the deb.rs definition of MaintainerScripts
is not under src/ (build.rs only imports and consumes it).  The spec
describes "an explicit MaintainerScripts bundle (preinst, postinst,
prerm, postrm script bodies)", each optional, exactly as control_tarball
consumes it. -/
structure MaintainerScripts where
  preinst : Option String
  postinst : Option String
  prerm : Option String
  postrm : Option String
deriving DecidableEq, Repr

/-- Embedding of build.rs struct AptSources. -/
structure AptSource where
  name : String
  url : String
  components : String
  gpgKeyUrl : String
deriving DecidableEq, Repr

/-- Embedding of build.rs struct File: one manifest entry. -/
structure File where
  src : String
  dst : String
  mode : Option Nat
  dir : Option String
deriving DecidableEq, Repr

/-- Embedding of build.rs struct BuildSpec. -/
structure BuildSpec where
  package : String
  name : Option String
  version : String
  description : Option String
  essential : Bool
  author : Option String
  email : Option String
  maintainer : Option String
  homepage : Option String
  files : List File
  dependencies : List String
  recommends : Option (List String)
  suggests : Option (List String)
  priority : Priority
  arch : String
  urgency : Option Urgency
  -- the Rust field is named section; that word is a Lean keyword
  sect : Option String
  aptSources : Option (List AptSource)
  scripts : Option MaintainerScripts
  buildno : Option Nat
deriving Repr

/-- Decimal rendering packed into a String. -/
def natStr (n : Nat) : String := ⟨natChars n⟩

/-- Embedding of BuildSpec::version (build.rs lines 307-312): append
the build number when present and positive. -/
def BuildSpec.versionStr (s : BuildSpec) : String :=
  match s.buildno with
  | some n => if n > 0 then s.version ++ "-" ++ natStr n else s.version
  | none => s.version

/-- Embedding of BuildSpec::filename (build.rs lines 303-305). -/
def BuildSpec.filename (s : BuildSpec) : String :=
  s.package ++ "-v" ++ s.versionStr ++ "_" ++ s.arch ++ ".deb"

/-- Embedding of the maintainer block of generate_control (build.rs
lines 99-110): the explicit maintainer wins; otherwise author and email
combine, or either stands alone; with all three absent the control
generation fails. -/
def maintainerLine (s : BuildSpec) : Option String :=
  match s.maintainer with
  | some m => some ("Maintainer: " ++ m)
  | none =>
    match s.author, s.email with
    | some a, some e => some ("Maintainer: " ++ a ++ " <" ++ e ++ ">")
    | some a, none => some ("Maintainer: " ++ a)
    | none, some e => some ("Maintainer: " ++ e)
    | none, none => none

def joinComma (l : List String) : String := String.intercalate ", " l

/-- Embedding of the Installed-Size computation (build.rs lines
116-119): the source computes ((install_size as f64) / 1024.0).ceil()
as u64.  Division by the power of two 1024 is exact in an f64 and the
u64 to f64 conversion is exact below 2^53, where the float expression
equals this exact ceiling division. -/
def ceilKiB (n : Nat) : Nat := (n + 1023) / 1024

/-- Embedding of BuildSpec::generate_control (build.rs lines 85-143) at
the granularity of output lines (each writeln produces one line).  The
source writes Package and Version into the buffer before discovering a
missing maintainer; since the whole buffer is discarded on error, the
failure is modelled as none. -/
def generateControl (s : BuildSpec) (installSize : Nat) : Option (List String) :=
  match maintainerLine s with
  | none => none
  | some mline =>
    some
      (["Package: " ++ s.package,
        "Version: " ++ s.versionStr] ++
       [(match s.sect with
         | some sec => "Section: " ++ sec
         | none => "Section: misc")] ++
       ["Priority: " ++ s.priority.toStr,
        "Architecture: " ++ s.arch,
        mline] ++
       (match s.urgency with
        | some u => ["Urgency: " ++ u.toStr]
        | none => []) ++
       (if installSize > 0 then ["Installed-Size: " ++ natStr (ceilKiB installSize)] else []) ++
       (match s.homepage with
        | some hp => ["Homepage: " ++ hp]
        | none => []) ++
       (if s.essential then ["Essential: yes"] else []) ++
       (if s.dependencies = [] then [] else ["Depends: " ++ joinComma s.dependencies]) ++
       (match s.description with
        | some d => ["Description: " ++ d]
        | none => []) ++
       (match s.recommends with
        | some r => if r = [] then [] else ["Recommends: " ++ joinComma r]
        | none => []) ++
       (match s.suggests with
        | some r => if r = [] then [] else ["Suggests: " ++ joinComma r]
        | none => []))

/-! ## Control tarball (BuildSpec::control_tarball, build.rs 218-301) -/

/-- One entry of the control tarball: the tar_header! macro fields the
claims speak about (name, mode, declared size) and the bytes written
after the header, kept as a String. -/
structure CtrlEntry where
  name : String
  mode : Nat
  size : Nat
  content : String
deriving DecidableEq, Repr

/-- Lowercase hex digits of one byte (hex::encode_to_slice). -/
def byteHex (b : Nat) : List Char := [Nat.digitChar (b / 16), Nat.digitChar (b % 16)]

/-- One md5sums row (build.rs lines 230-237): 32 hex characters, two
spaces, the recorded path, a newline. -/
def md5LineStr (rec : List Nat × String) : String :=
  (⟨(rec.1.map byteHex).flatten⟩ : String) ++ "  " ++ rec.2 ++ "\n"

/-- The full md5sums table, one row per hash record in order. -/
def md5sumsContent (hashes : List (List Nat × String)) : String :=
  String.join (hashes.map md5LineStr)

/-- Lines joined with the newline each writeln appended. -/
def renderLines (ls : List String) : String :=
  String.join (ls.map (fun l => l ++ "\n"))

/-- Byte length of a string (Rust str::len). -/
def utf8Len (s : String) : Nat := s.utf8ByteSize

/-- Embedding of char::is_whitespace (the Unicode White_Space
property), used by str::trim. -/
def isRustWhitespace (c : Char) : Bool :=
  c.toNat = 0x20 || (0x9 ≤ c.toNat && c.toNat ≤ 0xD) ||
  c.toNat = 0x85 || c.toNat = 0xA0 || c.toNat = 0x1680 ||
  (0x2000 ≤ c.toNat && c.toNat ≤ 0x200A) ||
  c.toNat = 0x2028 || c.toNat = 0x2029 || c.toNat = 0x202F ||
  c.toNat = 0x205F || c.toNat = 0x3000

/-- Embedding of str::trim: drop whitespace from both ends. -/
def rustTrim (s : String) : String :=
  ⟨((s.data.dropWhile isRustWhitespace).reverse.dropWhile isRustWhitespace).reverse⟩

/-- The preinst text generated for one apt source (build.rs lines
249-263): download the signing key, make it readable, register the apt
list entry. -/
def aptPreinstBlock (a : AptSource) : String :=
  "sudo wget -q -O '/usr/share/keyrings/" ++ a.name ++ ".gpg' '" ++ a.gpgKeyUrl ++ "'\n" ++
  "sudo chmod a+r /usr/share/keyrings/" ++ a.name ++ ".gpg\n" ++
  "echo \"deb [signed-by=/usr/share/keyrings/" ++ a.name ++
  ".gpg arch=$(dpkg --print-architecture)] " ++ a.url ++ " " ++ a.components ++
  "\" | sudo tee /etc/apt/sources.list.d/" ++ a.name ++ ".list\n"

/-- The postrm text generated for one apt source (build.rs line 264). -/
def aptPostrmBlock (a : AptSource) : String :=
  "rm -f /usr/share/keyrings/" ++ a.name ++ ".gpg /etc/apt/sources.list.d/" ++
  a.name ++ ".list\n"

/-- Embedding of BuildSpec::control_tarball (build.rs lines 218-301) as
the list of control tar entries in emission order: the control file,
the md5sums table, then either the synthesized apt preinst and postrm
(when apt_sources is set), or the explicit maintainer scripts that are
set, in the fixed order preinst, postinst, prerm, postrm.  Note the
faithful size and content pair for the explicit scripts: the declared
size is the untrimmed byte length (tar_header!(…, preinst.len())) while
the bytes written are the trimmed body (preinst.trim()). -/
def controlTarball (s : BuildSpec) (size : Nat) (hashes : List (List Nat × String)) :
    Option (List CtrlEntry) :=
  match generateControl s size with
  | none => none
  | some lines =>
    let controlContent := renderLines lines
    let md5c := md5sumsContent hashes
    let base := [⟨"control", 0o644, utf8Len controlContent, controlContent⟩,
                 ⟨"md5sums", 0o644, utf8Len md5c, md5c⟩]
    match s.aptSources with
    | some sources =>
      let pre := "#!/bin/sh\nset -eu\nmkdir -p /usr/share/keyrings/\n" ++
        String.join (sources.map aptPreinstBlock)
      let post := "#!/bin/sh\nset -eu\n" ++ String.join (sources.map aptPostrmBlock)
      some (base ++ [⟨"preinst", 0o755, utf8Len pre, pre⟩,
                     ⟨"postrm", 0o755, utf8Len post, post⟩])
    | none =>
      match s.scripts with
      | some scr =>
        some (base ++
          (match scr.preinst with
           | some p => [⟨"preinst", 0o755, utf8Len p, rustTrim p⟩]
           | none => []) ++
          (match scr.postinst with
           | some p => [⟨"postinst", 0o755, utf8Len p, rustTrim p⟩]
           | none => []) ++
          (match scr.prerm with
           | some p => [⟨"prerm", 0o755, utf8Len p, rustTrim p⟩]
           | none => []) ++
          (match scr.postrm with
           | some p => [⟨"postrm", 0o755, utf8Len p, rustTrim p⟩]
           | none => []))
      | none => some base

/-! ## Build orchestration (BuildSpec::build, build.rs 167-216) -/

/-- Append a trailing separator when the path lacks one. -/
def ensureTrailingSlash (s : String) : String :=
  if endsWithSlash s then s else s ++ "/"

/-- Modelled from the spec: DataBuilder::add_dir is called by
BuildSpec::build but its definition is not under src/ (src/pax/src/deb.rs
holds an older DataBuilder without it).  Spec section 4.1: "For an
explicit directory marker (empty source): emit a directory tar entry at
the given mode (default 0755) without a hash." -/
def addDir (st : DBState) (dest : String) (mode : Nat) : Except BuildErr DBState :=
  .ok { st with entries := st.entries ++
    [{ path := ensureTrailingSlash (stripLeadingSlash dest), etype := .directory,
       mode := mode, size := 0, mtime := st.time, content := [], linkTarget := "" }] }

/-- Modelled from the spec: BuildSpec::build calls a three-argument
DataBuilder::add_path(src, dst, mode) that is not under src/ (the
two-argument version above is).  The spec's FileEntry carries "mode:
Option(permission-bits)"; the third argument is modelled as overriding
the stat mode of a regular-file source, and as the two-argument
add_path when absent. -/
def addPathWithMode (md5 : List Nat → List Nat) (fs : Fs) (st : DBState)
    (source dest : String) : Option Nat → Except BuildErr DBState
  | none => addPath md5 fs st source dest
  | some m =>
    let dst := stripLeadingSlash dest
    match fsMetadata fs source with
    | none => .error (.statFailed source)
    | some (.symlink _ _) =>
      .error (.unsupportedFileType "symlinks are not supported file types")
    | some (.file content _ _) => addReader md5 st dst content content.length m
    | some (.dir es) => foldE (walkStep md5 dst) st (entriesLeaves "" es)
    | some .special =>
      .error (.unsupportedFileType "directories and files are the only supported file types")

/-- Stable insertion used to model files.sort_by_key(f.dst): the new
element goes after every element with a strictly smaller key and before
the first element with a key that is not smaller, which is exactly the
order a stable sort produces. -/
def insertByDst (f : File) : List File → List File
  | [] => [f]
  | g :: gs => if g.dst < f.dst then g :: insertByDst f gs else f :: g :: gs

/-- Stable sort of the manifest by destination, observationally equal
to the source's files.sort_by_key(|f| f.dst.clone()). -/
def sortFiles : List File → List File
  | [] => []
  | f :: rest => insertByDst f (sortFiles rest)

/-- Embedding of the payload loop of BuildSpec::build (build.rs lines
192-209): sort the manifest by destination, then for each entry either
emit a directory marker (explicit dir field, or an empty source), or
add the source path with the optional mode override. -/
def buildData (md5 : List Nat → List Nat) (fs : Fs) (files : List File) (now : Nat) :
    Except BuildErr DBState :=
  foldE
    (fun st f =>
      match f.dir with
      | some d => addDir st d (f.mode.getD 0o755)
      | none =>
        if f.src = "" then addDir st f.dst (f.mode.getD 0o755)
        else addPathWithMode md5 fs st f.src f.dst f.mode)
    (dbInit now) (sortFiles files)

/-- One member of the outer ar archive (DebArchive appends: name, mode
0644, fixed mtime, and the member bytes). -/
structure ArMember where
  name : String
  mode : Nat
  mtime : Nat
  data : List Nat
deriving DecidableEq, Repr

/-- Bytes of an ASCII string (used for the literal "2.0\n"). -/
def asciiBytes (s : String) : List Nat := s.data.map Char.toNat

/-- Embedding of BuildSpec::validate (build.rs lines 314-321): the
build refuses to start when maintainer, author and email are all
absent. -/
def validate (s : BuildSpec) : Except BuildErr Unit :=
  if s.maintainer = none ∧ s.author = none ∧ s.email = none then
    .error .missingMaintainer
  else .ok ()

/-- Outcome of BuildSpec::build.  noFile: the build failed before the
destination file was opened, so the destination was neither created nor
truncated and no archive bytes were written.  failed: the destination
file had been created or truncated (File::options create/truncate mode
0666 runs right after validate) and holds at most the members written
so far when the error surfaced.  built: the finished member list. -/
inductive BuildOutcome where
  | noFile : BuildErr → BuildOutcome
  | failed : BuildErr → List ArMember → BuildOutcome
  | built : List ArMember → BuildOutcome
deriving Repr

/-- Embedding of BuildSpec::build (build.rs lines 167-216) over the
filesystem model: validate, open the destination (modelled as always
succeeding), init the ar archive with the debian-binary member
(DebArchive::init, content "2.0\n", mode 0644), build the payload tar
and the control tar in memory, then append control.tar.gz and
data.tar.gz in that order — the source comments that this order is
load-bearing.  The gzip encoder and the byte serialization of the two
tar streams are abstracted as parameters; both member payloads are the
gzip image of the serialized entry list.  The single timestamp
parameter stands for the mtime_now() calls. -/
def build (md5 gzip : List Nat → List Nat) (tarSer : List TarEntry → List Nat)
    (ctrlSer : List CtrlEntry → List Nat) (s : BuildSpec) (fs : Fs) (now : Nat) :
    BuildOutcome :=
  match validate s with
  | .error e => .noFile e
  | .ok _ =>
    let members0 : List ArMember :=
      [{ name := "debian-binary", mode := 0o644, mtime := now, data := asciiBytes "2.0\n" }]
    match buildData md5 fs s.files now with
    | .error e => .failed e members0
    | .ok st =>
      match controlTarball s st.size st.hashes with
      | none => .failed .maintainerUnbuildable members0
      | some ctrlEntries =>
        .built (members0 ++
          [{ name := "control.tar.gz", mode := 0o644, mtime := now,
             data := gzip (ctrlSer ctrlEntries) },
           { name := "data.tar.gz", mode := 0o644, mtime := now,
             data := gzip (tarSer st.entries) }])

/-! ## Specification-side definitions for claims C3, C4 and C5 -/

/-- The md5sums bookkeeping invariant (claim C3): the recorded hash
list is exactly the digest and path of every regular tar entry, in
emission order — directory and symlink entries contribute nothing. -/
def hashInv (md5 : List Nat → List Nat) (st : DBState) : Prop :=
  st.hashes = (st.entries.filter (fun e => e.etype == TarEntryType.regular)).map
    (fun e => (md5 e.content, e.path))

/-- Specification-side rendering of one optional field line. -/
def optLine (key : String) : Option String → List String
  | some v => [key ++ ": " ++ v]
  | none => []

/-- Specification-side maintainer resolution (claim C5): the explicit
maintainer wins; else author and email format as "author, angle
brackets around email"; else the author alone, else the email alone. -/
def resolvedMaintainer (s : BuildSpec) : Option String :=
  match s.maintainer with
  | some m => some m
  | none =>
    match s.author, s.email with
    | some a, some e => some (a ++ " <" ++ e ++ ">")
    | some a, none => some a
    | none, some e => some e
    | none, none => none

/-- Specification-side control file lines in the exact order claim C4
lists, given the resolved maintainer value.  The Installed-Size value
is written as the claim words it: bytes divided by 1024, rounded up to
the next whole KiB. -/
def specControlLines (s : BuildSpec) (installSize : Nat) (mv : String) : List String :=
  ["Package: " ++ s.package,
   "Version: " ++ s.versionStr,
   "Section: " ++ s.sect.getD "misc",
   "Priority: " ++ s.priority.toStr,
   "Architecture: " ++ s.arch,
   "Maintainer: " ++ mv] ++
  optLine "Urgency" (s.urgency.map Urgency.toStr) ++
  (if installSize > 0 then
     ["Installed-Size: " ++
       natStr (if installSize % 1024 = 0 then installSize / 1024 else installSize / 1024 + 1)]
   else []) ++
  optLine "Homepage" s.homepage ++
  (if s.essential then ["Essential: yes"] else []) ++
  (if s.dependencies = [] then [] else ["Depends: " ++ joinComma s.dependencies]) ++
  optLine "Description" s.description ++
  (match s.recommends with
   | some r => if r = [] then [] else ["Recommends: " ++ joinComma r]
   | none => []) ++
  (match s.suggests with
   | some r => if r = [] then [] else ["Suggests: " ++ joinComma r]
   | none => [])

/-! ## Concrete instances used by the witness theorems -/

/-- A stand-in digest function: the claims hold for every digest
function, and the witnesses instantiate this one. -/
def wMd5 : List Nat → List Nat := fun _ => List.replicate 16 0

def wGzip : List Nat → List Nat := fun bs => bs

def wTarSer : List TarEntry → List Nat := fun _ => []

def wCtrlSer : List CtrlEntry → List Nat := fun _ => []

/-- A minimal valid spec. -/
def wSpec : BuildSpec :=
  { package := "p", name := none, version := "1.0.0", description := none,
    essential := false, author := none, email := none, maintainer := some "m",
    homepage := none, files := [], dependencies := [], recommends := none,
    suggests := none, priority := .optional, arch := "all", urgency := none,
    sect := none, aptSources := none, scripts := none, buildno := none }

/-- A spec with no maintainer, author or email. -/
def wSpecNoMaint : BuildSpec := { wSpec with maintainer := none }

/-- A richer spec exercising the optional control fields. -/
def wSpecFull : BuildSpec :=
  { wSpec with
    description := some "desc",
    essential := true,
    homepage := some "https://example.com",
    dependencies := ["libc6", "wget"],
    recommends := some ["curl"],
    suggests := some [],
    urgency := some .high,
    sect := some "utils",
    buildno := some 2 }

/-- Members of the successful empty-manifest build, used by the C1
witness. -/
def wBuiltMembers : List ArMember :=
  [{ name := "debian-binary", mode := 0o644, mtime := 7, data := asciiBytes "2.0\n" },
   { name := "control.tar.gz", mode := 0o644, mtime := 7, data := [] },
   { name := "data.tar.gz", mode := 0o644, mtime := 7, data := [] }]

/-- Filesystem with a symlink to a regular file (claim C6). -/
def wFsLink : Fs := [("link", .symlink "real" 0), ("real", .file [104, 105] 420 3)]

/-- Filesystem with a dangling symlink (claim C6). -/
def wFsDangling : Fs := [("link", .symlink "gone" 0)]

/-- Filesystem with a special (non file, dir or symlink) node. -/
def wFsSpecial : Fs := [("s", .special)]

/-- Filesystem with one regular file at a plain path. -/
def wFsFile : Fs := [("f", .file [1, 2] 420 0)]

/-- A directory tree with a nested file and a nested symlink. -/
def wFsTree : Fs :=
  [("d", .dir (.cons "b.txt" (.file [1] 420 0)
      (.cons "sub" (.dir (.cons "a.txt" (.file [2] 420 0) .nil))
        (.cons "ln" (.symlink "t" 5) .nil))))]

/-- Manifest walking the tree above. -/
def wFiles : List File := [{ src := "d", dst := "/opt/pkg", mode := none, dir := none }]

/-- Result state of building the tree manifest (the rfl hypothesis of
the C3 witness names it). -/
def wSt : DBState :=
  match buildData wMd5 wFsTree wFiles 9 with
  | .ok st => st
  | .error _ => dbInit 0

/-- Result state of adding one regular file (C3 witness). -/
def wStFile : DBState :=
  match addPath wMd5 wFsFile (dbInit 0) "f" "/a//./b.txt" with
  | .ok st => st
  | .error _ => dbInit 0

/-- Control tarball of the minimal spec over one hash record. -/
def wHashes : List (List Nat × String) := [(List.replicate 16 0, "usr/share/x.txt")]

def wCtrlEntries : List CtrlEntry := (controlTarball wSpec 0 wHashes).getD []

/-- Spec carrying one explicit preinst script with surrounding
whitespace (claim C9). -/
def wSpecScript : BuildSpec :=
  { wSpec with scripts := some ⟨some "  echo hi\n", none, none, none⟩ }

/-- Spec with all four maintainer scripts set (claim C9). -/
def wSpecScripts4 : BuildSpec :=
  { wSpec with scripts := some ⟨some "a", some "b", some "c", some "d"⟩ }

/-- Spec with both apt sources and explicit scripts set (claim C9:
apt_sources takes precedence). -/
def wSpecBoth : BuildSpec :=
  { wSpecScripts4 with
    aptSources := some
      [{ name := "n", url := "https://u", components := "main", gpgKeyUrl := "https://k" }] }

/-! ### The code parser equals the specification parser -/

theorem minOpt_map_succ (a b : Option Nat) :
    minOpt (a.map (· + 1)) (b.map (· + 1)) = (minOpt a b).map (· + 1) := by
  cases a <;> cases b <;> simp [minOpt] <;> try omega

theorem minOpt_zero_left (b : Option Nat) : minOpt (some 0) b = some 0 := by
  cases b <;> simp [minOpt]

theorem minOpt_zero_right (a : Option Nat) : minOpt a (some 0) = some 0 := by
  cases a <;> simp [minOpt]

/-- Minimum of the three single-character finds is the index of the
earliest delimiter occurrence. -/
theorem delimIdx_eq (l : List Char) :
    minOpt (findChar '~' l) (minOpt (findChar '+' l) (findChar '-' l)) = firstDelimIdx l := by
  induction l with
  | nil => rfl
  | cons x xs ih =>
    by_cases h1 : x = '~'
    · subst h1
      simp [findChar, firstDelimIdx, isRevDelim, minOpt_zero_left]
    · by_cases h2 : x = '+'
      · subst h2
        simp [findChar, firstDelimIdx, isRevDelim, minOpt_zero_left, minOpt_zero_right]
      · by_cases h3 : x = '-'
        · subst h3
          simp [findChar, firstDelimIdx, isRevDelim, minOpt_zero_left, minOpt_zero_right]
        · simp only [findChar, firstDelimIdx, isRevDelim, h1, h2, h3, if_false,
            decide_eq_true_eq, Bool.or_eq_true, decide_eq_true_iff, false_or, or_false,
            ite_false, Bool.false_or]
          rw [minOpt_map_succ, minOpt_map_succ, ih]

theorem splitChar_ne_nil (sep : Char) (l : List Char) : splitChar sep l ≠ [] := by
  induction l with
  | nil => simp [splitChar]
  | cons x xs ih =>
    by_cases h : x = sep
    · simp [splitChar, h]
    · cases hs : splitChar sep xs <;> simp [splitChar, h, hs]

/-- The indexed assignment loop of the source agrees with the
shape-matching reading of the spec on every non-empty component list. -/
theorem applySections_eq_spec (parts : List (List Char)) (h : parts ≠ []) :
    applySections parts 0 0 0 0 = specSections parts := by
  match parts with
  | [a] =>
    cases ha : parseU32 a <;> simp [applySections, specSections, ha]
  | [a, b] =>
    cases ha : parseU32 a <;> cases hb : parseU32 b <;>
      simp [applySections, specSections, ha, hb]
  | [a, b, c] =>
    cases ha : parseU32 a <;> cases hb : parseU32 b <;> cases hc : parseU32 c <;>
      simp [applySections, specSections, ha, hb, hc]
  | a :: b :: c :: d :: t =>
    cases ha : parseU32 a <;> cases hb : parseU32 b <;> cases hc : parseU32 c <;>
      cases hd : parseU32 d <;> simp [applySections, specSections, ha, hb, hc, hd]

theorem versionParseRest_eq_spec (e : Nat) (value : List Char) :
    versionParseRest e value = specParseRest e value := by
  simp only [versionParseRest, specParseRest, delimIdx_eq,
    applySections_eq_spec _ (splitChar_ne_nil _ _)]

/-- Claim C2 (amended): the code parser is exactly the parser the spec
describes — epoch split at the first colon whose left part must parse
as an unsigned integer, revision from the earliest delimiter to the end
inclusive, the part before it (after stripping one leading lowercase v)
split on dots into at most three numeric components with missing
trailing components defaulting to zero — together with the two concrete
examples named by the claim. -/
theorem version_parser_matches_spec :
    (∀ input, versionTryFrom input = specParseVersion input) ∧
    parseVersion "2:7.3.429-2ubuntu2.1" = some ⟨2, 7, 3, 429, "-2ubuntu2.1".data⟩ ∧
    parseVersion "1.1.1.1.1.1" = none := by
  refine ⟨fun input => ?_, by decide, by decide⟩
  unfold versionTryFrom specParseVersion
  by_cases h : input = []
  · simp [h]
  · cases hso : splitOnce ':' input with
    | none => simp [h, hso, versionParseRest_eq_spec]
    | some pr =>
      cases hep : parseU32 pr.1 with
      | none => simp [h, hso, hep]
      | some e => simp [h, hso, hep, versionParseRest_eq_spec]

/-- Claim C2 counterexample: the input "v1.2.3" is accepted by the
parser although the part before its (empty) revision, split on dots,
has the non-numeric first component "v1"; the claim as stated says any
non-numeric component makes the parse fail. -/
theorem version_parser_accepts_v_input :
    parseVersion "v1.2.3" = some ⟨0, 1, 2, 3, []⟩ ∧
    splitChar '.' "v1.2.3".data = ["v1".data, "2".data, "3".data] ∧
    parseU32 "v1".data = none ∧
    firstDelimIdx "v1.2.3".data = none := by
  refine ⟨by decide, by decide, by decide, by decide⟩

/-- Claim C7 (amended): the parser strips exactly one leading lowercase
letter v from the upstream version and nothing else; "v1.2.3" parses to
major 1, minor 2, patch 3, while "V1.2.3" is rejected, as is "vv1"
(only one v is stripped). -/
theorem version_strips_one_lowercase_v :
    (∀ cs, stripV ('v' :: cs) = cs) ∧
    (∀ (c : Char) cs, c ≠ 'v' → stripV (c :: cs) = c :: cs) ∧
    parseVersion "v1.2.3" = some ⟨0, 1, 2, 3, []⟩ ∧
    parseVersion "V1.2.3" = none ∧
    parseVersion "vv1" = none := by
  refine ⟨fun cs => by simp [stripV], fun c cs h => by simp [stripV, h],
    by decide, by decide, by decide⟩

theorem version_strips_one_lowercase_v_witness :
    ('V' : Char) ≠ 'v' ∧ stripV ('V' :: []) = 'V' :: [] :=
  ⟨by decide, version_strips_one_lowercase_v.2.1 'V' [] (by decide)⟩

/-- Claim C7 counterexample: the claim says "V1.2.3" parses to major 1,
minor 2, patch 3, but the source only strips a lowercase "v"
(value.strip_prefix("v")) and the parse fails. -/
theorem version_rejects_capital_v : parseVersion "V1.2.3" = none := by decide

/-- Claim C10: the hand-written PartialOrd and Ord implementations of
Version agree — partial_cmp never returns None and always returns
Some(cmp) — and both equal the lexicographic comparison of
(epoch, major, minor, patch) followed by byte-wise comparison of the
revision strings. -/
theorem version_partial_cmp_agrees_cmp :
    ∀ a b : Version,
      versionPartialCmp a b = some (versionOrdCmp a b) ∧
      versionOrdCmp a b = specVersionCmp a b := by
  intro a b
  refine ⟨?_, ?_⟩ <;>
    · simp only [versionPartialCmp, versionOrdCmp, specVersionCmp]
      cases he : compare a.epoch b.epoch <;>
        cases hma : compare a.major b.major <;>
          cases hmi : compare a.minor b.minor <;>
            cases hpa : compare a.patch b.patch <;>
              simp [he, hma, hmi, hpa, Ordering.then]

/-! ### Round trip: parse, to_string, parse (claim C8) -/

theorem natCharsAux_congr :
    ∀ f g n, n < f → n < g → natCharsAux f n = natCharsAux g n := by
  intro f
  induction f with
  | zero => intro g n h; omega
  | succ f ih =>
    intro g n hf hg
    cases g with
    | zero => omega
    | succ g =>
      by_cases h10 : n < 10
      · simp [natCharsAux, h10]
      · have hdiv : n / 10 < n := Nat.div_lt_self (by omega) (by omega)
        simp only [natCharsAux, h10, if_false]
        rw [ih g (n / 10) (by omega) (by omega)]

theorem natChars_step (n : Nat) (h : 10 ≤ n) :
    natChars n = natChars (n / 10) ++ [Nat.digitChar (n % 10)] := by
  have hdiv : n / 10 < n := Nat.div_lt_self (by omega) (by omega)
  have h2 : natCharsAux (n + 1) n
      = natCharsAux n (n / 10) ++ [Nat.digitChar (n % 10)] := by
    rw [natCharsAux, if_neg (by omega)]
  have h3 : natCharsAux n (n / 10) = natCharsAux (n / 10 + 1) (n / 10) :=
    natCharsAux_congr n (n / 10 + 1) (n / 10) (by omega) (by omega)
  show natCharsAux (n + 1) n = natCharsAux (n / 10 + 1) (n / 10) ++ [Nat.digitChar (n % 10)]
  rw [h2, h3]

theorem natChars_small (n : Nat) (h : n < 10) : natChars n = [Nat.digitChar n] := by
  simp [natChars, natCharsAux, h]

theorem digitChar_isDigit (d : Nat) (h : d < 10) : (Nat.digitChar d).isDigit = true := by
  interval_cases d <;> decide

theorem digitToNat_digitChar (d : Nat) (h : d < 10) : digitToNat (Nat.digitChar d) = d := by
  interval_cases d <;> decide

theorem natChars_all_digit : ∀ n, ∀ c ∈ natChars n, c.isDigit = true := by
  intro n
  induction n using Nat.strong_induction_on with
  | _ n ih =>
    by_cases h : n < 10
    · rw [natChars_small n h]
      intro c hc
      simp at hc
      subst hc
      exact digitChar_isDigit n h
    · rw [natChars_step n (by omega)]
      intro c hc
      rcases List.mem_append.mp hc with hc | hc
      · exact ih (n / 10) (Nat.div_lt_self (by omega) (by omega)) c hc
      · simp at hc
        subst hc
        exact digitChar_isDigit (n % 10) (Nat.mod_lt _ (by omega))

theorem natChars_ne_nil (n : Nat) : natChars n ≠ [] := by
  by_cases h : n < 10
  · rw [natChars_small n h]; simp
  · rw [natChars_step n (by omega)]; simp

theorem digitsVal_append_last (l : List Char) (c : Char) :
    digitsVal (l ++ [c]) = digitsVal l * 10 + digitToNat c := by
  simp [digitsVal, List.foldl_append]

theorem digitsVal_natChars : ∀ n, digitsVal (natChars n) = n := by
  intro n
  induction n using Nat.strong_induction_on with
  | _ n ih =>
    by_cases h : n < 10
    · rw [natChars_small n h]
      simp [digitsVal, digitToNat_digitChar n h]
    · rw [natChars_step n (by omega), digitsVal_append_last,
        ih (n / 10) (Nat.div_lt_self (by omega) (by omega)),
        digitToNat_digitChar (n % 10) (Nat.mod_lt _ (by omega))]
      omega

/-- Digits are not sign characters, separators or delimiters. -/
theorem isDigit_not_special (c : Char) (h : c.isDigit = true) :
    c ≠ '+' ∧ c ≠ '-' ∧ c ≠ ':' ∧ c ≠ '.' ∧ c ≠ 'v' ∧ isRevDelim c = false := by
  refine ⟨?_, ?_, ?_, ?_, ?_, ?_⟩
  · rintro rfl; exact absurd h (by decide)
  · rintro rfl; exact absurd h (by decide)
  · rintro rfl; exact absurd h (by decide)
  · rintro rfl; exact absurd h (by decide)
  · rintro rfl; exact absurd h (by decide)
  · by_cases h1 : c = '~'
    · subst h1; exact absurd h (by decide)
    · by_cases h2 : c = '+'
      · subst h2; exact absurd h (by decide)
      · by_cases h3 : c = '-'
        · subst h3; exact absurd h (by decide)
        · simp [isRevDelim, h1, h2, h3]

theorem parseU32_natChars (n : Nat) (h : n < 4294967296) :
    parseU32 (natChars n) = some n := by
  cases hnc : natChars n with
  | nil => exact absurd hnc (natChars_ne_nil n)
  | cons c rest =>
    have hcd : c.isDigit = true := by
      apply natChars_all_digit n
      rw [hnc]
      simp
    obtain ⟨hplus, hminus, -⟩ := isDigit_not_special c hcd
    have hor : ¬(c = '+' ∨ c = '-') := by
      rintro (rfl | rfl)
      · exact hplus rfl
      · exact hminus rfl
    have hall : (c :: rest).all Char.isDigit = true := by
      rw [← hnc]
      simp only [List.all_eq_true]
      intro x hx
      exact natChars_all_digit n x hx
    have hval : digitsVal (c :: rest) = n := by
      rw [← hnc]
      exact digitsVal_natChars n
    have hall2 : ∀ x ∈ c :: rest, x.isDigit = true := by
      simpa using hall
    simp [parseU32, hplus, hminus, hval, h, hcd]
    exact fun x hx => hall2 x (List.mem_cons_of_mem c hx)

/-- A successful parseU32 result is below 2^32. -/
theorem parseU32_lt (s : List Char) (n : Nat) (h : parseU32 s = some n) :
    n < 4294967296 := by
  cases s with
  | nil => simp [parseU32] at h
  | cons c rest =>
    simp only [parseU32] at h
    repeat split at h
    all_goals try simp at h
    all_goals obtain ⟨-, h⟩ := h
    all_goals repeat split at h
    all_goals try simp at h
    all_goals omega

theorem splitOnce_clean_append (sep : Char) (l r : List Char) (h : ∀ c ∈ l, c ≠ sep) :
    splitOnce sep (l ++ sep :: r) = some (l, r) := by
  induction l with
  | nil => simp [splitOnce]
  | cons x xs ih =>
    have hx : x ≠ sep := h x (by simp)
    simp only [List.cons_append, splitOnce, hx, ite_false, if_false, List.append_eq]
    rw [ih (fun c hc => h c (by simp [hc]))]
    rfl

theorem firstDelimIdx_clean (l : List Char) (h : ∀ c ∈ l, isRevDelim c = false) :
    firstDelimIdx l = none := by
  induction l with
  | nil => rfl
  | cons x xs ih =>
    simp [firstDelimIdx, h x (by simp), ih (fun c hc => h c (by simp [hc]))]

theorem firstDelimIdx_clean_append (pre : List Char) (d : Char) (tl : List Char)
    (hpre : ∀ c ∈ pre, isRevDelim c = false) (hd : isRevDelim d = true) :
    firstDelimIdx (pre ++ d :: tl) = some pre.length := by
  induction pre with
  | nil => simp [firstDelimIdx, hd]
  | cons x xs ih =>
    simp only [List.cons_append, firstDelimIdx, hpre x (by simp), ite_false,
      Bool.false_eq_true, if_false, List.append_eq]
    rw [ih (fun c hc => hpre c (by simp [hc]))]
    simp

theorem splitChar_clean (sep : Char) (l : List Char) (h : ∀ c ∈ l, c ≠ sep) :
    splitChar sep l = [l] := by
  induction l with
  | nil => rfl
  | cons x xs ih =>
    simp only [splitChar, h x (by simp), ite_false, if_false]
    rw [ih (fun c hc => h c (by simp [hc]))]

theorem splitChar_clean_append (sep : Char) (a rest : List Char) (h : ∀ c ∈ a, c ≠ sep) :
    splitChar sep (a ++ sep :: rest) = a :: splitChar sep rest := by
  induction a with
  | nil => simp [splitChar]
  | cons x xs ih =>
    simp only [List.cons_append, splitChar, h x (by simp), ite_false, if_false,
      List.append_eq]
    rw [ih (fun c hc => h c (by simp [hc]))]

theorem firstDelimIdx_drop (l : List Char) (i : Nat) (h : firstDelimIdx l = some i) :
    ∃ d tl, l.drop i = d :: tl ∧ isRevDelim d = true := by
  induction l generalizing i with
  | nil => simp [firstDelimIdx] at h
  | cons x xs ih =>
    by_cases hx : isRevDelim x
    · simp [firstDelimIdx, hx] at h
      subst h
      exact ⟨x, xs, rfl, hx⟩
    · simp only [firstDelimIdx, hx, ite_false, Bool.false_eq_true, if_false] at h
      cases hfd : firstDelimIdx xs with
      | none => rw [hfd] at h; simp at h
      | some j =>
        rw [hfd] at h
        simp at h
        subst h
        simpa using ih j hfd

/-- A successful applySections call keeps every field below 2^32 when
the incoming fields are. -/
theorem applySections_lt :
    ∀ parts i ma mi pa x y z,
      ma < 4294967296 → mi < 4294967296 → pa < 4294967296 →
      applySections parts i ma mi pa = some (x, y, z) →
      x < 4294967296 ∧ y < 4294967296 ∧ z < 4294967296 := by
  intro parts
  induction parts with
  | nil =>
    intro i ma mi pa x y z hma hmi hpa h
    simp [applySections] at h
    obtain ⟨rfl, rfl, rfl⟩ := h
    exact ⟨hma, hmi, hpa⟩
  | cons p rest ih =>
    intro i ma mi pa x y z hma hmi hpa h
    simp only [applySections] at h
    cases hp : parseU32 p with
    | none => rw [hp] at h; simp at h
    | some v =>
      rw [hp] at h
      have hv := parseU32_lt p v hp
      match i, h with
      | 0, h => exact ih 1 v mi pa x y z hv hmi hpa h
      | 1, h => exact ih 2 ma v pa x y z hma hv hpa h
      | 2, h => exact ih 3 ma mi v x y z hma hmi hv h
      | (k + 3), h => simp at h

/-- Shape of a successfully parsed version: every numeric field is a
u32 value and the revision is empty or begins with a delimiter. -/
theorem versionParseRest_shape (e : Nat) (value : List Char) (v : Version)
    (h : versionParseRest e value = some v) :
    v.epoch = e ∧ v.major < 4294967296 ∧ v.minor < 4294967296 ∧ v.patch < 4294967296 ∧
      (v.revision = [] ∨ ∃ d tl, v.revision = d :: tl ∧ isRevDelim d = true) := by
  simp only [versionParseRest, delimIdx_eq] at h
  cases hix : firstDelimIdx value with
  | none =>
    rw [hix] at h
    cases has : applySections (splitChar '.' (stripV value)) 0 0 0 0 with
    | none => rw [has] at h; simp at h
    | some t =>
      obtain ⟨ma, mi, pa⟩ := t
      rw [has] at h
      simp at h
      subst h
      obtain ⟨h1, h2, h3⟩ :=
        applySections_lt _ 0 0 0 0 ma mi pa (by omega) (by omega) (by omega) has
      exact ⟨rfl, h1, h2, h3, Or.inl rfl⟩
  | some ix =>
    rw [hix] at h
    cases has : applySections (splitChar '.' (stripV (value.take ix))) 0 0 0 0 with
    | none => rw [has] at h; simp at h
    | some t =>
      obtain ⟨ma, mi, pa⟩ := t
      rw [has] at h
      simp at h
      subst h
      obtain ⟨h1, h2, h3⟩ :=
        applySections_lt _ 0 0 0 0 ma mi pa (by omega) (by omega) (by omega) has
      exact ⟨rfl, h1, h2, h3, Or.inr (firstDelimIdx_drop value ix hix)⟩

/-- Shape of any successful parse, the epoch bound included. -/
theorem versionTryFrom_shape (s : List Char) (v : Version)
    (h : versionTryFrom s = some v) :
    v.epoch < 4294967296 ∧ v.major < 4294967296 ∧ v.minor < 4294967296 ∧
      v.patch < 4294967296 ∧
      (v.revision = [] ∨ ∃ d tl, v.revision = d :: tl ∧ isRevDelim d = true) := by
  unfold versionTryFrom at h
  split at h
  · simp at h
  · split at h
    · obtain ⟨he, h1, h2, h3, h4⟩ := versionParseRest_shape 0 _ v h
      exact ⟨by omega, h1, h2, h3, h4⟩
    · rename_i ep rest heq
      cases hep : parseU32 ep with
      | none => rw [hep] at h; simp at h
      | some e =>
        rw [hep] at h
        obtain ⟨he, h1, h2, h3, h4⟩ := versionParseRest_shape e rest v h
        exact ⟨he ▸ parseU32_lt ep e hep, h1, h2, h3, h4⟩

/-- Claim C8: Version::to_string renders epoch, colon, the three dotted
numeric fields and then the revision verbatim (definition
versionToString), and re-parsing the rendering of any successfully
parsed version succeeds and returns the very same version — in
particular the same epoch, major, minor and patch. -/
theorem version_tostring_reparse (s : List Char) (v : Version)
    (h : versionTryFrom s = some v) :
    versionTryFrom (versionToString v) = some v := by
  obtain ⟨heb, hmab, hmib, hpab, hrev⟩ := versionTryFrom_shape s v h
  obtain ⟨e, ma, mi, pa, rev⟩ := v
  dsimp only at heb hmab hmib hpab hrev
  have hdigE := natChars_all_digit e
  have hdigMa := natChars_all_digit ma
  have hdigMi := natChars_all_digit mi
  have hdigPa := natChars_all_digit pa
  have hne : versionToString ⟨e, ma, mi, pa, rev⟩ ≠ [] := by
    show natChars e ++ ':' ::
        (natChars ma ++ '.' :: (natChars mi ++ '.' :: (natChars pa ++ rev))) ≠ []
    cases hnc : natChars e with
    | nil => exact absurd hnc (natChars_ne_nil e)
    | cons c t => simp
  have hsplit : splitOnce ':' (versionToString ⟨e, ma, mi, pa, rev⟩)
      = some (natChars e,
          natChars ma ++ '.' :: (natChars mi ++ '.' :: (natChars pa ++ rev))) :=
    splitOnce_clean_append ':' _ _
      (fun c hc => (isDigit_not_special c (hdigE c hc)).2.2.1)
  have hpreclean : ∀ c ∈ natChars ma ++ '.' :: (natChars mi ++ '.' :: natChars pa),
      isRevDelim c = false := by
    intro c hc
    simp only [List.mem_append, List.mem_cons] at hc
    rcases hc with hc | hc | hc
    · exact (isDigit_not_special c (hdigMa c hc)).2.2.2.2.2
    · subst hc; decide
    · rcases hc with hc | hc | hc
      · exact (isDigit_not_special c (hdigMi c hc)).2.2.2.2.2
      · subst hc; decide
      · exact (isDigit_not_special c (hdigPa c hc)).2.2.2.2.2
  have hscma : ∀ c ∈ natChars ma, c ≠ '.' :=
    fun c hc => (isDigit_not_special c (hdigMa c hc)).2.2.2.1
  have hscmi : ∀ c ∈ natChars mi, c ≠ '.' :=
    fun c hc => (isDigit_not_special c (hdigMi c hc)).2.2.2.1
  have hscpa : ∀ c ∈ natChars pa, c ≠ '.' :=
    fun c hc => (isDigit_not_special c (hdigPa c hc)).2.2.2.1
  have hsc : splitChar '.' (natChars ma ++ '.' :: (natChars mi ++ '.' :: natChars pa))
      = [natChars ma, natChars mi, natChars pa] := by
    rw [splitChar_clean_append '.' _ _ hscma, splitChar_clean_append '.' _ _ hscmi,
      splitChar_clean '.' _ hscpa]
  have hstrip : stripV (natChars ma ++ '.' :: (natChars mi ++ '.' :: natChars pa))
      = natChars ma ++ '.' :: (natChars mi ++ '.' :: natChars pa) := by
    cases hnc : natChars ma with
    | nil => exact absurd hnc (natChars_ne_nil ma)
    | cons c t =>
      have hdc : c.isDigit = true := hdigMa c (by rw [hnc]; simp)
      have hv : c ≠ 'v' := (isDigit_not_special c hdc).2.2.2.2.1
      simp [stripV, hv]
  have happ : applySections [natChars ma, natChars mi, natChars pa] 0 0 0 0
      = some (ma, mi, pa) := by
    simp [applySections, parseU32_natChars ma hmab, parseU32_natChars mi hmib,
      parseU32_natChars pa hpab]
  rcases hrev with hrev | ⟨d, tl, hrev, hd⟩ <;> subst hrev
  · unfold versionTryFrom
    rw [if_neg hne, hsplit]
    dsimp only
    rw [parseU32_natChars e heb]
    simp only [versionParseRest, delimIdx_eq, List.append_nil]
    rw [firstDelimIdx_clean _ hpreclean]
    simp only [hstrip, hsc, happ]
  · unfold versionTryFrom
    rw [if_neg hne, hsplit]
    dsimp only
    rw [parseU32_natChars e heb]
    simp only [versionParseRest, delimIdx_eq]
    have hpre2 : natChars ma ++ '.' :: (natChars mi ++ '.' :: (natChars pa ++ d :: tl))
        = (natChars ma ++ '.' :: (natChars mi ++ '.' :: natChars pa)) ++ d :: tl := by
      simp [List.append_assoc]
    rw [hpre2, firstDelimIdx_clean_append _ d tl hpreclean hd]
    simp only [List.take_left, List.drop_left, hstrip, hsc, happ]

theorem version_tostring_reparse_witness :
    versionTryFrom (versionToString ⟨2, 7, 3, 429, "-2ubuntu2.1".data⟩)
      = some ⟨2, 7, 3, 429, "-2ubuntu2.1".data⟩ :=
  version_tostring_reparse "2:7.3.429-2ubuntu2.1".data _ (by decide)


/-! ### Claims about the build orchestration and the control file -/

theorem maintainerLine_eq (s : BuildSpec) :
    maintainerLine s = (resolvedMaintainer s).map (fun v => "Maintainer: " ++ v) := by
  unfold maintainerLine resolvedMaintainer
  cases s.maintainer with
  | some m => rfl
  | none => cases s.author <;> cases s.email <;> rfl

/-- Claim C1: every successful build produces exactly the three ar
members debian-binary (content "2.0\n", mode 0644), control.tar.gz and
data.tar.gz, in that order, and nothing else. -/
theorem build_members_exact (md5 gzip : List Nat → List Nat)
    (tarSer : List TarEntry → List Nat) (ctrlSer : List CtrlEntry → List Nat)
    (s : BuildSpec) (fs : Fs) (now : Nat) (ms : List ArMember)
    (h : build md5 gzip tarSer ctrlSer s fs now = .built ms) :
    ∃ c d, ms =
      [{ name := "debian-binary", mode := 0o644, mtime := now, data := asciiBytes "2.0\n" },
       { name := "control.tar.gz", mode := 0o644, mtime := now, data := c },
       { name := "data.tar.gz", mode := 0o644, mtime := now, data := d }] := by
  unfold build at h
  split at h
  · exact absurd h (by simp)
  · split at h
    · exact absurd h (by simp)
    · split at h
      · exact absurd h (by simp)
      · injection h with h
        subst h
        exact ⟨_, _, rfl⟩

theorem build_members_exact_witness :
    ∃ c d, wBuiltMembers =
      [{ name := "debian-binary", mode := 0o644, mtime := 7, data := asciiBytes "2.0\n" },
       { name := "control.tar.gz", mode := 0o644, mtime := 7, data := c },
       { name := "data.tar.gz", mode := 0o644, mtime := 7, data := d }] :=
  build_members_exact wMd5 wGzip wTarSer wCtrlSer wSpec [] 7 wBuiltMembers (by rfl)

/-- Claim C4: the control file lines are exactly the fields of the
claim, in its order and under its presence conditions, for any spec
whose maintainer resolves. -/
theorem control_lines_match_spec (s : BuildSpec) (sz : Nat) (lines : List String)
    (h : generateControl s sz = some lines) :
    ∃ mv, resolvedMaintainer s = some mv ∧ lines = specControlLines s sz mv := by
  unfold generateControl at h
  rw [maintainerLine_eq] at h
  cases hr : resolvedMaintainer s with
  | none => rw [hr] at h; simp at h
  | some mv =>
    rw [hr] at h
    simp only [Option.map_some', Option.some.injEq] at h
    refine ⟨mv, rfl, ?_⟩
    subst h
    have hceil : ceilKiB sz = (if sz % 1024 = 0 then sz / 1024 else sz / 1024 + 1) := by
      unfold ceilKiB
      by_cases h0 : sz % 1024 = 0
      · simp only [h0, if_true, ite_true]
        omega
      · simp only [h0, if_false, ite_false]
        omega
    unfold specControlLines optLine
    rw [hceil]
    cases s.sect <;> cases s.urgency <;> cases s.homepage <;> cases s.description <;>
      simp [Option.getD, optLine]

theorem control_lines_match_spec_witness :
    ∃ mv, resolvedMaintainer wSpecFull = some mv ∧
      specControlLines wSpecFull 1500 "m" = specControlLines wSpecFull 1500 mv :=
  control_lines_match_spec wSpecFull 1500 (specControlLines wSpecFull 1500 "m") (by decide)

/-- Claim C5: the Maintainer value is the explicit maintainer field
when set, else author and email combined, else the author alone, else
the email alone (first conjunct: the generated line is exactly the
resolved value; second: it appears among the control lines); and when
all three are absent the build fails validation before the destination
file is created or truncated, which the noFile outcome models, so no
archive bytes are written. -/
theorem maintainer_resolution_and_validation :
    (∀ s : BuildSpec,
      maintainerLine s = (resolvedMaintainer s).map (fun v => "Maintainer: " ++ v)) ∧
    (∀ (s : BuildSpec) (sz : Nat) (lines : List String) (mv : String),
      generateControl s sz = some lines → resolvedMaintainer s = some mv →
      ("Maintainer: " ++ mv) ∈ lines) ∧
    (∀ (md5 gzip : List Nat → List Nat) (tarSer : List TarEntry → List Nat)
      (ctrlSer : List CtrlEntry → List Nat) (s : BuildSpec) (fs : Fs) (now : Nat),
      s.maintainer = none → s.author = none → s.email = none →
      build md5 gzip tarSer ctrlSer s fs now = .noFile .missingMaintainer) := by
  refine ⟨maintainerLine_eq, ?_, ?_⟩
  · intro s sz lines mv h hmv
    unfold generateControl at h
    rw [maintainerLine_eq, hmv] at h
    simp only [Option.map_some', Option.some.injEq] at h
    subst h
    simp
  · intro md5 gzip tarSer ctrlSer s fs now h1 h2 h3
    unfold build validate
    simp [h1, h2, h3]

theorem maintainer_resolution_and_validation_witness :
    build wMd5 wGzip wTarSer wCtrlSer wSpecNoMaint [] 0 = .noFile .missingMaintainer ∧
    ("Maintainer: " ++ "m") ∈ specControlLines wSpec 0 "m" :=
  ⟨maintainer_resolution_and_validation.2.2 wMd5 wGzip wTarSer wCtrlSer wSpecNoMaint [] 0
      rfl rfl rfl,
   maintainer_resolution_and_validation.2.1 wSpec 0 (specControlLines wSpec 0 "m") "m"
      (by decide) (by decide)⟩

/-- Claim C6, evaluated at the failing input (the claim is the intent
of the code and the code misses it): the manifest source "link" is a
symlink on disk (fsLookup), but fs::metadata follows it, add_path sees
a regular file and succeeds, archiving the target's bytes and
recording its hash — it does not fail with the unsupported-file-type
error the claim requires.  A dangling symlink fails with a stat error,
again not the unsupported-file-type error.  Only the genuinely special
node is rejected as the claim describes. -/
theorem addPath_symlink_not_rejected :
    fsLookup wFsLink "link" = some (FsNode.symlink "real" 0) ∧
    fsMetadata wFsLink "link" = some (FsNode.file [104, 105] 420 3) ∧
    (∃ st, addPath wMd5 wFsLink (dbInit 0) "link" "/usr/share/x" = .ok st ∧
      st.hashes = [(wMd5 [104, 105], "usr/share/x")]) ∧
    addPath wMd5 wFsDangling (dbInit 0) "link" "/x" = .error (.statFailed "link") ∧
    addPath wMd5 wFsSpecial (dbInit 0) "s" "/x" =
      .error (.unsupportedFileType "directories and files are the only supported file types") :=
  ⟨rfl, rfl, ⟨_, rfl, rfl⟩, rfl, rfl⟩

/-- Claim C9, evaluated at the failing input: with apt_sources absent,
the explicit scripts that are set are emitted in the fixed order
preinst, postinst, prerm, postrm, and apt_sources takes precedence when
both are present — but the declared tar size of an explicit script is
the untrimmed byte length while the written content is the trimmed
body, so for a preinst of "  echo hi\n" the header declares 10 bytes
and only 7 are written, where the claim requires both to be the trimmed
script. -/
theorem maintainer_scripts_declared_size_untrimmed :
    ((controlTarball wSpecScripts4 0 []).map (fun es => es.map CtrlEntry.name)) =
      some ["control", "md5sums", "preinst", "postinst", "prerm", "postrm"] ∧
    ((controlTarball wSpecBoth 0 []).map (fun es => es.map CtrlEntry.name)) =
      some ["control", "md5sums", "preinst", "postrm"] ∧
    (∃ c m, controlTarball wSpecScript 0 [] =
        some [c, m, { name := "preinst", mode := 0o755,
                      size := utf8Len "  echo hi\n", content := rustTrim "  echo hi\n" }] ∧
      utf8Len "  echo hi\n" = 10 ∧ rustTrim "  echo hi\n" = "echo hi" ∧
      utf8Len (rustTrim "  echo hi\n") = 7) := by
  exact ⟨by rfl, by rfl, ⟨_, _, by rfl, by rfl, by rfl, by rfl⟩⟩

/-! ### Claim C3: the md5sums table -/

theorem splitChar_pieces (sep : Char) :
    ∀ l p, p ∈ splitChar sep l → sep ∉ p := by
  intro l
  induction l with
  | nil =>
    intro p hp
    simp only [splitChar, List.mem_singleton] at hp
    subst hp
    simp
  | cons x xs ih =>
    intro p hp
    by_cases hx : x = sep
    · simp only [splitChar, hx, if_true, ite_true, List.mem_cons] at hp
      rcases hp with rfl | hp
      · simp
      · exact ih p hp
    · simp only [splitChar, hx, ite_false, if_false] at hp
      cases hs : splitChar sep xs with
      | nil => exact absurd hs (splitChar_ne_nil sep xs)
      | cons hh tt =>
        rw [hs] at hp
        simp only [List.mem_cons] at hp
        rcases hp with rfl | hp
        · intro hmem
          simp only [List.mem_cons] at hmem
          rcases hmem with rfl | hmem
          · exact hx rfl
          · exact ih hh (by rw [hs]; simp) hmem
        · exact ih p (by rw [hs]; simp [hp])

theorem pathComps_pieces (s : String) :
    ∀ p ∈ pathComps s, p.data ≠ [] ∧ '/' ∉ p.data := by
  intro p hp
  unfold pathComps at hp
  simp only [List.mem_map, List.mem_filter] at hp
  obtain ⟨c, ⟨hc, hcne⟩, rfl⟩ := hp
  simp only [decide_eq_true_eq] at hcne
  exact ⟨hcne.1, splitChar_pieces '/' s.data c hc⟩

theorem isAbsPath_joinComps (comps : List String)
    (h : ∀ p ∈ comps, p.data ≠ [] ∧ '/' ∉ p.data) :
    isAbsPath (joinComps comps) = false := by
  match comps with
  | [] => rfl
  | [c] =>
    obtain ⟨hne, hsl⟩ := h c (by simp)
    show isAbsPath c = false
    unfold isAbsPath
    cases hd : c.data with
    | nil => rfl
    | cons a t =>
      have : a ≠ '/' := by
        intro hEq
        subst hEq
        exact hsl (by rw [hd]; simp)
      cases a
      simp_all [isAbsPath]
  | c :: d :: t =>
    obtain ⟨hne, hsl⟩ := h c (by simp)
    show isAbsPath (c ++ "/" ++ joinComps (d :: t)) = false
    unfold isAbsPath
    cases hd : c.data with
    | nil => exact absurd hd hne
    | cons a u =>
      have ha : a ≠ '/' := by
        intro hEq
        subst hEq
        exact hsl (by rw [hd]; simp)
      have : (c ++ "/" ++ joinComps (d :: t)).data
          = a :: (u ++ ('/' :: (joinComps (d :: t)).data)) := by
        simp [String.data_append, hd]
      rw [this]
      simp [ha]

/-- Stripping the leading slash is idempotent: the output never starts
with the separator. -/
theorem stripLeadingSlash_idem (s : String) :
    stripLeadingSlash (stripLeadingSlash s) = stripLeadingSlash s := by
  by_cases h : isAbsPath s = true
  · have h2 : stripLeadingSlash s = joinComps (pathComps s) := by
      unfold stripLeadingSlash
      rw [if_pos h]
    rw [h2]
    unfold stripLeadingSlash
    rw [if_neg (by rw [isAbsPath_joinComps (pathComps s) (pathComps_pieces s)]; simp)]
  · have h2 : stripLeadingSlash s = s := by
      unfold stripLeadingSlash
      rw [if_neg h]
    rw [h2, h2]

theorem emitDirs_shape (l : List String) :
    ∀ st acc,
      (emitDirs st acc l).hashes = st.hashes ∧
      (emitDirs st acc l).time = st.time ∧
      (emitDirs st acc l).size = st.size ∧
      ∃ ds, (emitDirs st acc l).entries = st.entries ++ ds ∧
        ∀ e ∈ ds, e.etype = TarEntryType.directory := by
  induction l with
  | nil =>
    intro st acc
    exact ⟨rfl, rfl, rfl, [], by simp [emitDirs], by simp⟩
  | cons c rest ih =>
    intro st acc
    by_cases hm : acc ++ [c] ∈ st.dirs
    · simp only [emitDirs, hm, if_true, ite_true]
      exact ih st (acc ++ [c])
    · simp only [emitDirs, hm, if_false, ite_false]
      obtain ⟨h1, h2, h3, ds, h4, h5⟩ := ih
        { st with dirs := st.dirs ++ [acc ++ [c]],
                  entries := st.entries ++ [dirTarEntry (acc ++ [c]) st.time] }
        (acc ++ [c])
      refine ⟨h1, h2, h3, dirTarEntry (acc ++ [c]) st.time :: ds, ?_, ?_⟩
      · rw [h4]
        simp
      · intro e he
        rcases List.mem_cons.mp he with rfl | he
        · rfl
        · exact h5 e he

theorem addParentDirectories_shape (st : DBState) (dst : String) (st' : DBState)
    (h : addParentDirectories st dst = .ok st') :
    st'.hashes = st.hashes ∧ st'.time = st.time ∧ st'.size = st.size ∧
    ∃ ds, st'.entries = st.entries ++ ds ∧ ∀ e ∈ ds, e.etype = TarEntryType.directory := by
  unfold addParentDirectories at h
  split at h
  · exact absurd h (by simp)
  · injection h with h
    subst h
    exact emitDirs_shape _ st []

theorem addReader_shape (md5 : List Nat → List Nat) (st : DBState) (dest : String)
    (content : List Nat) (size mode : Nat) (st' : DBState)
    (h : addReader md5 st dest content size mode = .ok st') :
    st'.hashes = st.hashes ++ [(md5 content, stripLeadingSlash dest)] ∧
    st'.time = st.time ∧ st'.size = st.size + size ∧
    ∃ ds, st'.entries = st.entries ++ ds ++
        [{ path := stripLeadingSlash dest, etype := .regular, mode := mode, size := size,
           mtime := st.time, content := content, linkTarget := "" }] ∧
      ∀ e ∈ ds, e.etype = TarEntryType.directory := by
  simp only [addReader] at h
  cases hap : addParentDirectories st (stripLeadingSlash dest) with
  | error e => rw [hap] at h; exact absurd h (by simp)
  | ok st1 =>
    rw [hap] at h
    injection h with h
    subst h
    obtain ⟨h1, h2, h3, ds, h4, h5⟩ := addParentDirectories_shape st _ st1 hap
    refine ⟨by rw [h1], by rw [h2], by rw [h3], ds, ?_, h5⟩
    rw [h4, h2]

theorem addReader_inv (md5 : List Nat → List Nat) (st st' : DBState) (dest : String)
    (content : List Nat) (size mode : Nat) (hst : hashInv md5 st)
    (h : addReader md5 st dest content size mode = .ok st') : hashInv md5 st' := by
  obtain ⟨h1, h2, h3, ds, h4, h5⟩ := addReader_shape md5 st dest content size mode st' h
  unfold hashInv at hst ⊢
  rw [h1, h4, hst]
  have hds : ds.filter (fun e => e.etype == TarEntryType.regular) = [] := by
    rw [List.filter_eq_nil_iff]
    intro e he
    simp [h5 e he]
  simp [List.filter_append, hds]

theorem walkStep_inv (md5 : List Nat → List Nat) (dst : String) (st st' : DBState)
    (leaf : String × FsNode) (hst : hashInv md5 st)
    (h : walkStep md5 dst st leaf = .ok st') : hashInv md5 st' := by
  obtain ⟨rel, node⟩ := leaf
  cases node with
  | file content mode mt =>
    exact addReader_inv md5 st st' (joinPath dst rel) content content.length mode hst h
  | symlink target mt =>
    simp only [walkStep] at h
    injection h with h
    subst h
    unfold hashInv at hst ⊢
    rw [hst]
    simp [List.filter_append]
  | special =>
    simp only [walkStep] at h
    injection h with h
    subst h
    exact hst
  | dir es =>
    simp only [walkStep] at h
    injection h with h
    subst h
    exact hst

theorem foldE_inv (P : DBState → Prop) (f : DBState → α → Except BuildErr DBState)
    (hf : ∀ st a st', P st → f st a = .ok st' → P st') :
    ∀ l st st', P st → foldE f st l = .ok st' → P st' := by
  intro l
  induction l with
  | nil =>
    intro st st' hp h
    simp only [foldE] at h
    injection h with h
    subst h
    exact hp
  | cons a rest ih =>
    intro st st' hp h
    simp only [foldE] at h
    cases hf1 : f st a with
    | error e => rw [hf1] at h; exact absurd h (by simp)
    | ok st2 => rw [hf1] at h; exact ih st2 st' (hf st a st2 hp hf1) h

theorem addDir_inv (md5 : List Nat → List Nat) (st st' : DBState) (dest : String)
    (mode : Nat) (hst : hashInv md5 st) (h : addDir st dest mode = .ok st') :
    hashInv md5 st' := by
  unfold addDir at h
  injection h with h
  subst h
  unfold hashInv at hst ⊢
  rw [hst]
  simp [List.filter_append]

theorem addPath_inv (md5 : List Nat → List Nat) (fs : Fs) (st st' : DBState)
    (source dest : String) (hst : hashInv md5 st)
    (h : addPath md5 fs st source dest = .ok st') : hashInv md5 st' := by
  simp only [addPath] at h
  cases hm : fsMetadata fs source with
  | none => rw [hm] at h; exact absurd h (by simp)
  | some node =>
    rw [hm] at h
    cases node with
    | file content mode mt =>
      exact addReader_inv md5 st st' (stripLeadingSlash dest) content content.length mode hst h
    | symlink target mt => exact absurd h (by simp)
    | dir es =>
      exact foldE_inv (hashInv md5) _
        (fun s1 leaf s2 hp hstep => walkStep_inv md5 (stripLeadingSlash dest) s1 s2 leaf hp hstep)
        (entriesLeaves "" es) st st' hst h
    | special => exact absurd h (by simp)

theorem addPathWithMode_inv (md5 : List Nat → List Nat) (fs : Fs) (st st' : DBState)
    (source dest : String) (modeO : Option Nat) (hst : hashInv md5 st)
    (h : addPathWithMode md5 fs st source dest modeO = .ok st') : hashInv md5 st' := by
  cases modeO with
  | none => exact addPath_inv md5 fs st st' source dest hst h
  | some m =>
    simp only [addPathWithMode] at h
    cases hm : fsMetadata fs source with
    | none => rw [hm] at h; exact absurd h (by simp)
    | some node =>
      rw [hm] at h
      cases node with
      | file content mode mt =>
        exact addReader_inv md5 st st' (stripLeadingSlash dest) content content.length m hst h
      | symlink target mt => exact absurd h (by simp)
      | dir es =>
        exact foldE_inv (hashInv md5) _
          (fun s1 leaf s2 hp hstep => walkStep_inv md5 (stripLeadingSlash dest) s1 s2 leaf hp hstep)
          (entriesLeaves "" es) st st' hst h
      | special => exact absurd h (by simp)

theorem buildData_hashInv (md5 : List Nat → List Nat) (fs : Fs) (files : List File)
    (now : Nat) (st : DBState) (h : buildData md5 fs files now = .ok st) :
    hashInv md5 st := by
  unfold buildData at h
  refine foldE_inv (hashInv md5) _ ?_ (sortFiles files) (dbInit now) st rfl h
  intro st1 f st2 hp hf
  cases hfd : f.dir with
  | some d =>
    rw [hfd] at hf
    exact addDir_inv md5 st1 st2 d (f.mode.getD 0o755) hp hf
  | none =>
    rw [hfd] at hf
    by_cases hs : f.src = ""
    · rw [if_pos hs] at hf
      exact addDir_inv md5 st1 st2 f.dst (f.mode.getD 0o755) hp hf
    · rw [if_neg hs] at hf
      exact addPathWithMode_inv md5 fs st1 st2 f.src f.dst f.mode hp hf

theorem byteHex_flatten_length (d : List Nat) :
    ((d.map byteHex).flatten).length = 2 * d.length := by
  induction d with
  | nil => rfl
  | cons b rest ih =>
    simp only [List.map_cons, List.flatten_cons, List.length_append, ih, byteHex,
      List.length_cons]
    simp
    omega

theorem hexDigit_mem (m : Nat) (h : m < 16) :
    Nat.digitChar m ∈ "0123456789abcdef".data := by
  interval_cases m <;> decide

theorem byteHex_mem (b : Nat) (hb : b < 256) :
    ∀ c ∈ byteHex b, c ∈ "0123456789abcdef".data := by
  intro c hc
  simp only [byteHex, List.mem_cons, List.not_mem_nil, or_false] at hc
  rcases hc with rfl | rfl
  · exact hexDigit_mem _ (by omega)
  · exact hexDigit_mem _ (Nat.mod_lt _ (by omega))

theorem md5Line_shape (d : List Nat) (p : String) (hlen : d.length = 16)
    (hbytes : ∀ b ∈ d, b < 256) :
    ∃ hx : List Char, md5LineStr (d, p) = (⟨hx⟩ : String) ++ "  " ++ p ++ "\n" ∧
      hx.length = 32 ∧ ∀ c ∈ hx, c ∈ "0123456789abcdef".data := by
  refine ⟨(d.map byteHex).flatten, rfl, ?_, ?_⟩
  · rw [byteHex_flatten_length d, hlen]
  · intro c hc
    simp only [List.mem_flatten, List.mem_map] at hc
    obtain ⟨l, ⟨b, hb, rfl⟩, hcl⟩ := hc
    exact byteHex_mem b (hbytes b hb) c hcl

theorem controlTarball_md5sums (s : BuildSpec) (sz : Nat)
    (hashes : List (List Nat × String)) (es : List CtrlEntry)
    (h : controlTarball s sz hashes = some es) :
    ∃ c rest, es = c ::
      ({ name := "md5sums", mode := 0o644, size := utf8Len (md5sumsContent hashes),
         content := md5sumsContent hashes } : CtrlEntry) :: rest := by
  simp only [controlTarball] at h
  cases hg : generateControl s sz with
  | none => rw [hg] at h; exact absurd h (by simp)
  | some lines =>
    rw [hg] at h
    cases hap : s.aptSources with
    | some sources =>
      rw [hap] at h
      injection h with h
      subst h
      exact ⟨_, _, rfl⟩
    | none =>
      rw [hap] at h
      cases hscr : s.scripts with
      | some scr =>
        rw [hscr] at h
        injection h with h
        subst h
        exact ⟨_, _, rfl⟩
      | none =>
        rw [hscr] at h
        injection h with h
        subst h
        exact ⟨_, _, rfl⟩

theorem addPath_file_record (md5 : List Nat → List Nat) (fs : Fs) (st st' : DBState)
    (src dest : String) (content : List Nat) (mode mt : Nat)
    (hm : fsMetadata fs src = some (.file content mode mt))
    (h : addPath md5 fs st src dest = .ok st') :
    st'.hashes = st.hashes ++ [(md5 content, stripLeadingSlash dest)] := by
  simp only [addPath, hm] at h
  obtain ⟨h1, -, -, -⟩ :=
    addReader_shape md5 st (stripLeadingSlash dest) content content.length mode st' h
  rw [h1, stripLeadingSlash_idem]

/-- Claim C3: the md5sums member of the control tarball is exactly one
line per recorded HashRecord in emission order (its content is the join
of the per-record rows, and it sits right after the control entry with
its byte length declared); each row is 32 lowercase hexadecimal
characters, two spaces, the recorded destination path and a newline;
the records themselves are exactly the digest and stripped destination
of the regular payload files — directories and symlinks never record a
hash — and a top-level regular file records the digest of its content
under its destination with the leading slash removed. -/
theorem md5sums_table :
    (∀ (s : BuildSpec) (sz : Nat) (hashes : List (List Nat × String)) (es : List CtrlEntry),
      controlTarball s sz hashes = some es →
      ∃ c rest, es = c ::
        ({ name := "md5sums", mode := 0o644, size := utf8Len (md5sumsContent hashes),
           content := md5sumsContent hashes } : CtrlEntry) :: rest) ∧
    (∀ hashes : List (List Nat × String),
      md5sumsContent hashes = String.join (hashes.map md5LineStr)) ∧
    (∀ (d : List Nat) (p : String), d.length = 16 → (∀ b ∈ d, b < 256) →
      ∃ hx : List Char, md5LineStr (d, p) = (⟨hx⟩ : String) ++ "  " ++ p ++ "\n" ∧
        hx.length = 32 ∧ ∀ c ∈ hx, c ∈ "0123456789abcdef".data) ∧
    (∀ (md5 : List Nat → List Nat) (fs : Fs) (files : List File) (now : Nat) (st : DBState),
      buildData md5 fs files now = .ok st → hashInv md5 st) ∧
    (∀ (md5 : List Nat → List Nat) (fs : Fs) (st st' : DBState) (src dest : String)
      (content : List Nat) (mode mt : Nat),
      fsMetadata fs src = some (.file content mode mt) →
      addPath md5 fs st src dest = .ok st' →
      st'.hashes = st.hashes ++ [(md5 content, stripLeadingSlash dest)]) :=
  ⟨controlTarball_md5sums, fun _ => rfl, md5Line_shape, buildData_hashInv,
   fun md5 fs st st' src dest content mode mt hm h =>
     addPath_file_record md5 fs st st' src dest content mode mt hm h⟩

theorem md5sums_table_witness :
    (∃ c rest, wCtrlEntries = c ::
      ({ name := "md5sums", mode := 0o644, size := utf8Len (md5sumsContent wHashes),
         content := md5sumsContent wHashes } : CtrlEntry) :: rest) ∧
    (∃ hx : List Char, md5LineStr (List.replicate 16 0, "usr/share/x.txt")
        = (⟨hx⟩ : String) ++ "  " ++ "usr/share/x.txt" ++ "\n" ∧
      hx.length = 32 ∧ ∀ c ∈ hx, c ∈ "0123456789abcdef".data) ∧
    hashInv wMd5 wSt ∧
    wStFile.hashes = (dbInit 0).hashes ++ [(wMd5 [1, 2], stripLeadingSlash "/a//./b.txt")] :=
  ⟨md5sums_table.1 wSpec 0 wHashes wCtrlEntries (by rfl),
   md5sums_table.2.2.1 (List.replicate 16 0) "usr/share/x.txt" (by decide) (by decide),
   md5sums_table.2.2.2.1 wMd5 wFsTree wFiles 9 wSt (by rfl),
   md5sums_table.2.2.2.2 wMd5 wFsFile (dbInit 0) wStFile "f" "/a//./b.txt" [1, 2] 420 0
     (by rfl) (by rfl)⟩

end Pax
